import Mathlib

/-!
Verification of the `viber-bot-node` HTTP client (`lib/viber-client.js`).

The development shallowly embeds the JavaScript module: JavaScript values
are modelled by the inductive type `JVal` (numbers restricted to integers;
no floating point values appear in the claims), `JSON.stringify` /
`JSON.parse` by `stringifyVal` / `jsonParse`, the environment-driven proxy
decision by `resolveProxy`, the request dispatcher `_sendRequest` by
`requestEnvelope` / `sendRequest`, and the API-surface methods by functions
returning a `Call` (synchronous throw, rejected promise, or delegation to
the dispatcher with an endpoint name and a payload).
-/

/-- Character constants used instead of literals. -/
def dquote : Char := Char.ofNat 34

/-- Backslash character. -/
def bslash : Char := Char.ofNat 92

/-- Opening curly bracket character. -/
def lbrace : Char := Char.ofNat 123

/-- Closing curly bracket character. -/
def rbrace : Char := Char.ofNat 125

/-- JavaScript values as used by the client: `undefined`, `null`, booleans,
(integer) numbers, strings, arrays and plain objects.  Objects are modelled
as association lists in property-insertion order, matching the enumeration
order JavaScript guarantees for string keys. -/
inductive JVal where
  | undef : JVal
  | null : JVal
  | bool (b : Bool) : JVal
  | num (n : Int) : JVal
  | str (s : String) : JVal
  | arr (xs : List JVal) : JVal
  | obj (fs : List (String × JVal)) : JVal

/-- JavaScript truthiness of a value. -/
def truthy : JVal → Bool
  | .undef => false
  | .null => false
  | .bool b => b
  | .num n => !(n == 0)
  | .str s => !s.data.isEmpty
  | .arr _ => true
  | .obj _ => true

/-- Loose equality against `null` (`x == null`), true exactly for
`undefined` and `null`. -/
def jsEqNull : JVal → Bool
  | .undef => true
  | .null => true
  | _ => false

/-- The underscore library's `_.isEmpty`: length zero for arrays and
strings, no keys for objects, and `true` for every non-collection value. -/
def jsIsEmpty : JVal → Bool
  | .arr xs => xs.isEmpty
  | .obj fs => fs.isEmpty
  | .str s => s.data.isEmpty
  | _ => true

/-- The underscore library's `_.isArray`. -/
def isArr : JVal → Bool
  | .arr _ => true
  | _ => false

/-- Lookup of a property in an object (association list, first match). -/
def objLookup (k : String) : List (String × JVal) → Option JVal
  | [] => none
  | (k2, v) :: rest => if k2 = k then some v else objLookup k rest

/-- Whether an object has a property with the given key. -/
def hasKey (k : String) : List (String × JVal) → Bool
  | [] => false
  | (k2, _) :: rest => k2 == k || hasKey k rest

/-- JavaScript property assignment `o[k] = v`: update in place when the key
exists, append otherwise. -/
def objSet (o : List (String × JVal)) (k : String) (v : JVal) : List (String × JVal) :=
  if hasKey k o then o.map (fun p => if p.1 = k then (k, v) else p) else o ++ [(k, v)]

/-- `Object.assign(target, source)` restricted to an object source already
flattened to key/value pairs: the source's pairs are assigned onto the
target left to right, so source keys win on conflict. -/
def objAssign (t s : List (String × JVal)) : List (String × JVal) :=
  s.foldl (fun acc p => objSet acc p.1 p.2) t

/-- Decimal digit character of a digit value. -/
def digitChar : Nat → Char
  | 0 => '0'
  | 1 => '1'
  | 2 => '2'
  | 3 => '3'
  | 4 => '4'
  | 5 => '5'
  | 6 => '6'
  | 7 => '7'
  | 8 => '8'
  | 9 => '9'
  | _ => 'x'

/-- Fuelled decimal printer for naturals (fuel bounds the recursion depth;
`natToChars` supplies enough fuel for every input). -/
def natToCharsAux : Nat → Nat → List Char
  | 0, _ => []
  | fuel + 1, n => if n < 10 then [digitChar n] else natToCharsAux fuel (n / 10) ++ [digitChar (n % 10)]

/-- Decimal representation of a natural number. -/
def natToChars (n : Nat) : List Char := natToCharsAux (n + 1) n

/-- Decimal representation of an integer, as produced by `JSON.stringify`
for JavaScript integers. -/
def intToChars (n : Int) : List Char :=
  if n < 0 then '-' :: natToChars n.natAbs else natToChars n.toNat

/-- Lower-case hexadecimal digit character of a digit value. -/
def hexDigit : Nat → Char
  | 10 => 'a'
  | 11 => 'b'
  | 12 => 'c'
  | 13 => 'd'
  | 14 => 'e'
  | 15 => 'f'
  | n => digitChar n

/-- String escaping performed by `JSON.stringify`: quotation mark and
backslash get two-character escapes, the five named control characters get
their short escapes, every other control character below 32 gets a
`\u00..` escape, and all remaining characters are emitted literally. -/
def escapeChar (c : Char) : List Char :=
  if c = dquote then [bslash, dquote]
  else if c = bslash then [bslash, bslash]
  else if c = Char.ofNat 8 then [bslash, 'b']
  else if c = Char.ofNat 9 then [bslash, 't']
  else if c = Char.ofNat 10 then [bslash, 'n']
  else if c = Char.ofNat 12 then [bslash, 'f']
  else if c = Char.ofNat 13 then [bslash, 'r']
  else if c.toNat < 32 then [bslash, 'u', '0', '0', hexDigit (c.toNat / 16), hexDigit (c.toNat % 16)]
  else [c]

/-- Escape every character of a string body. -/
def escapeList : List Char → List Char
  | [] => []
  | c :: cs => escapeChar c ++ escapeList cs

/-- JSON string literal text of a string. -/
def quoteStr (s : List Char) : List Char := dquote :: escapeList s ++ [dquote]

/-- Join chunks with comma separators. -/
def joinComma : List (List Char) → List Char
  | [] => []
  | [x] => x
  | x :: y :: xs => x ++ ',' :: joinComma (y :: xs)

mutual
/-- `JSON.stringify` on the embedded value type.  An `undefined` in array
position serializes to `null` and an `undefined`-valued property is omitted
from its object, exactly as in JavaScript.  (A top-level `undefined` never
reaches this function in the client: `_serializeTrackingData` replaces it by
the empty string first.) -/
def stringifyVal : JVal → List Char
  | .undef => 'n' :: 'u' :: 'l' :: 'l' :: []
  | .null => 'n' :: 'u' :: 'l' :: 'l' :: []
  | .bool true => 't' :: 'r' :: 'u' :: 'e' :: []
  | .bool false => 'f' :: 'a' :: 'l' :: 's' :: 'e' :: []
  | .num n => intToChars n
  | .str s => quoteStr s.data
  | .arr xs => '[' :: joinComma (elemChunks xs) ++ [']']
  | .obj fs => lbrace :: joinComma (memberChunks fs) ++ [rbrace]

/-- Serialized chunks of the elements of an array. -/
def elemChunks : List JVal → List (List Char)
  | [] => []
  | v :: vs => stringifyVal v :: elemChunks vs

/-- Serialized chunks of the members of an object; `undefined`-valued
members are skipped. -/
def memberChunks : List (String × JVal) → List (List Char)
  | [] => []
  | (k, v) :: fs =>
    match v with
    | .undef => memberChunks fs
    | _ => (quoteStr k.data ++ ':' :: stringifyVal v) :: memberChunks fs
end

/-- The client's `_serializeTrackingData`: a value loosely equal to `null`
or empty (per `_.isEmpty`) is replaced by the empty string, and the result
is passed to `JSON.stringify`. -/
def serializeTrackingData (optionalTrackingData : JVal) : String :=
  let td := if jsEqNull optionalTrackingData || jsIsEmpty optionalTrackingData then JVal.str "" else optionalTrackingData
  ⟨stringifyVal td⟩

/-- Decimal digit test on characters. -/
def isDigitChar (c : Char) : Bool := 48 ≤ c.toNat && c.toNat ≤ 57

/-- Digit value of a decimal digit character. -/
def charDigit (c : Char) : Nat := c.toNat - 48

/-- Consume a maximal run of decimal digits, folding them onto an
accumulator; returns the accumulated value and the remaining input. -/
def parseDigits : List Char → Nat → Nat × List Char
  | [], acc => (acc, [])
  | c :: rest, acc => if isDigitChar c then parseDigits rest (acc * 10 + charDigit c) else (acc, c :: rest)

/-- Whether `needle` is a leading fragment of `hay`. -/
def startsWithChars (needle hay : List Char) : Bool :=
  match needle, hay with
  | [], _ => true
  | n1 :: ntail, h1 :: htail => n1 == h1 && startsWithChars ntail htail
  | _ :: _, [] => false

/-- Whether a character list starts with a decimal digit. -/
def digitHead : List Char → Bool
  | c :: _ => isDigitChar c
  | [] => false

/-- Value of a hexadecimal digit character (either case). -/
def hexVal (c : Char) : Option Nat :=
  if 48 ≤ c.toNat && c.toNat ≤ 57 then some (c.toNat - 48)
  else if 97 ≤ c.toNat && c.toNat ≤ 102 then some (c.toNat - 87)
  else if 65 ≤ c.toNat && c.toNat ≤ 70 then some (c.toNat - 55)
  else none

/-- Parse the body of a JSON string literal after its opening quotation
mark, decoding the escapes `JSON.parse` accepts; returns the decoded
characters and the input remaining after the closing quotation mark.
Surrogate `\u` escapes are rejected (the embedding's characters are
scalar values, and the serializer never emits surrogate escapes). -/
def parseStringBody : List Char → Option (List Char × List Char)
  | [] => none
  | c :: rest =>
    if c = dquote then some ([], rest)
    else if c = bslash then
      match rest with
      | [] => none
      | e :: rs =>
        if e = dquote then (parseStringBody rs).map (fun p => (dquote :: p.1, p.2))
        else if e = bslash then (parseStringBody rs).map (fun p => (bslash :: p.1, p.2))
        else if e = '/' then (parseStringBody rs).map (fun p => ('/' :: p.1, p.2))
        else if e = 'b' then (parseStringBody rs).map (fun p => (Char.ofNat 8 :: p.1, p.2))
        else if e = 't' then (parseStringBody rs).map (fun p => (Char.ofNat 9 :: p.1, p.2))
        else if e = 'n' then (parseStringBody rs).map (fun p => (Char.ofNat 10 :: p.1, p.2))
        else if e = 'f' then (parseStringBody rs).map (fun p => (Char.ofNat 12 :: p.1, p.2))
        else if e = 'r' then (parseStringBody rs).map (fun p => (Char.ofNat 13 :: p.1, p.2))
        else if e = 'u' then
          match rs with
          | h1 :: h2 :: h3 :: h4 :: rs2 =>
            match hexVal h1, hexVal h2, hexVal h3, hexVal h4 with
            | some a, some b, some c2, some d =>
              let n := ((a * 16 + b) * 16 + c2) * 16 + d
              if n < 55296 then (parseStringBody rs2).map (fun p => (Char.ofNat n :: p.1, p.2))
              else none
            | _, _, _, _ => none
          | _ => none
        else none
    else if c.toNat < 32 then none
    else (parseStringBody rest).map (fun p => (c :: p.1, p.2))

/-- Head-character test. -/
def headIs (c : Char) : List Char → Bool
  | x :: _ => x = c
  | [] => false

mutual
/-- Fuelled JSON parser for a single value (`JSON.parse` on the canonical,
whitespace-free texts produced by `stringifyVal`; numbers restricted to
integers).  Returns the value and the remaining input. -/
def parseVal : Nat → List Char → Option (JVal × List Char)
  | 0, _ => none
  | fuel + 1, cs =>
    match cs with
    | [] => none
    | c :: rest =>
      if c = 'n' then
        if startsWithChars ['u', 'l', 'l'] rest then some (.null, rest.drop 3) else none
      else if c = 't' then
        if startsWithChars ['r', 'u', 'e'] rest then some (.bool true, rest.drop 3) else none
      else if c = 'f' then
        if startsWithChars ['a', 'l', 's', 'e'] rest then some (.bool false, rest.drop 4) else none
      else if c = dquote then (parseStringBody rest).map (fun p => (.str ⟨p.1⟩, p.2))
      else if c = '[' then
        if headIs ']' rest then some (.arr [], rest.drop 1)
        else (parseElems fuel rest).map (fun p => (.arr p.1, p.2))
      else if c = lbrace then
        if headIs rbrace rest then some (.obj [], rest.drop 1)
        else (parseMembers fuel rest).map (fun p => (.obj p.1, p.2))
      else if c = '-' then
        if digitHead rest then
          let p := parseDigits rest 0
          some (.num (-(p.1 : Int)), p.2)
        else none
      else if isDigitChar c then
        let p := parseDigits (c :: rest) 0
        some (.num (p.1 : Int), p.2)
      else none

/-- Parse the elements of a non-empty JSON array after its opening bracket,
up to and including the closing bracket. -/
def parseElems : Nat → List Char → Option (List JVal × List Char)
  | 0, _ => none
  | fuel + 1, cs =>
    match parseVal fuel cs with
    | none => none
    | some (v, r) =>
      match r with
      | c2 :: r2 =>
        if c2 = ',' then
          match parseElems fuel r2 with
          | some (vs, r3) => some (v :: vs, r3)
          | none => none
        else if c2 = ']' then some ([v], r2)
        else none
      | [] => none

/-- Parse the members of a non-empty JSON object after its opening brace,
up to and including the closing brace. -/
def parseMembers : Nat → List Char → Option (List (String × JVal) × List Char)
  | 0, _ => none
  | fuel + 1, cs =>
    match cs with
    | [] => none
    | c :: rest =>
      if c = dquote then
        match parseStringBody rest with
        | some (k, r) =>
          match r with
          | c1 :: r2 =>
            if c1 = ':' then
              match parseVal fuel r2 with
              | some (v, r3) =>
                match r3 with
                | c2 :: r4 =>
                  if c2 = ',' then
                    match parseMembers fuel r4 with
                    | some (ms, r5) => some ((⟨k⟩, v) :: ms, r5)
                    | none => none
                  else if c2 = rbrace then some ([(⟨k⟩, v)], r4) else none
                | [] => none
              | none => none
            else none
          | [] => none
        | none => none
      else none
end

/-- `JSON.parse` of a complete text: the parse must consume the whole
input. -/
def jsonParse (s : String) : Option JVal :=
  match parseVal (s.data.length + 1) s.data with
  | some (v, []) => some v
  | _ => none

mutual
/-- Size measure of a value, used to bound the parser fuel. -/
def sizeJ : JVal → Nat
  | .arr xs => sizeL xs + 1
  | .obj fs => sizeM fs + 1
  | _ => 1

/-- Size measure of an array's element list. -/
def sizeL : List JVal → Nat
  | [] => 0
  | v :: vs => sizeJ v + sizeL vs + 1

/-- Size measure of an object's member list. -/
def sizeM : List (String × JVal) → Nat
  | [] => 0
  | (_, v) :: fs => sizeJ v + sizeM fs + 1
end

mutual
/-- Whether a value contains no `undefined` anywhere: exactly the values a
JavaScript caller can build out of JSON-representable data. -/
def noUndef : JVal → Bool
  | .undef => false
  | .arr xs => noUndefL xs
  | .obj fs => noUndefM fs
  | _ => true

/-- `noUndef` on an element list. -/
def noUndefL : List JVal → Bool
  | [] => true
  | v :: vs => noUndef v && noUndefL vs

/-- `noUndef` on a member list. -/
def noUndefM : List (String × JVal) → Bool
  | [] => true
  | (_, v) :: fs => noUndef v && noUndefM fs
end

/-- JavaScript `String.prototype.split(",")` on the character list of a
string: always returns at least one (possibly empty) group. -/
def splitComma : List Char → List (List Char)
  | [] => [[]]
  | c :: rest =>
    if c = ',' then [] :: splitComma rest
    else
      match splitComma rest with
      | g :: gs => (c :: g) :: gs
      | [] => [[c]]

/-- Whether `needle` occurs contiguously anywhere in the second list
(JavaScript `hay.indexOf(needle) !== -1`). -/
def hasSubstrChars (needle : List Char) : List Char → Bool
  | [] => startsWithChars needle []
  | c :: t => startsWithChars needle (c :: t) || hasSubstrChars needle t

/-- Substring containment on strings. -/
def strContains (hay needle : String) : Bool := hasSubstrChars needle.data hay.data

/-- Outcome of the environment-driven proxy decision: connect directly, use
a proxy with the given connection parameters, or fail because the
configured proxy URL does not parse (`new URL` would throw). -/
structure ProxyConn where
  protocol : String
  hostname : String
  port : String
  username : Option String
  password : Option String
deriving DecidableEq, Repr

/-- Proxy decision produced per request. -/
inductive ProxyDecision where
  | direct : ProxyDecision
  | invalid : ProxyDecision
  | useProxy (conn : ProxyConn) : ProxyDecision
deriving DecidableEq, Repr

/-- Snapshot of the three environment variables the dispatcher consults.
`none` models an unset variable; `some ""` a variable set to the empty
string (both are falsy in JavaScript). -/
structure ProxyEnv where
  httpProxyVar : Option String
  httpsProxyVar : Option String
  noProxyVar : Option String

/-- JavaScript truthiness of an environment variable read. -/
def envTruthy : Option String → Bool
  | none => false
  | some s => !s.data.isEmpty

/-- Parsed components of a URL, after the WHATWG `URL` constructor.  The
model covers `scheme://[user[:password]@]host[:port][/...]` with a
lower-case scheme and host, no IPv6 bracket syntax and no percent
decoding — the shapes proxy URLs take in this client. -/
structure URLParts where
  protocol : String
  hostname : String
  port : String
  username : String
  password : String
deriving DecidableEq, Repr

/-- Split a character list at the first `://`, returning the parts before
and after it. -/
def breakSchemeSep : List Char → Option (List Char × List Char)
  | [] => none
  | ':' :: '/' :: '/' :: rest => some ([], rest)
  | c :: rest => (breakSchemeSep rest).map (fun p => (c :: p.1, p.2))

/-- Split a character list at the last occurrence of a separator. -/
def breakLast (sep : Char) : List Char → Option (List Char × List Char)
  | [] => none
  | c :: rest =>
    match breakLast sep rest with
    | some (a, b) => some (c :: a, b)
    | none => if c = sep then some ([], rest) else none

/-- Split a character list at the first occurrence of a separator. -/
def breakFirst (sep : Char) : List Char → Option (List Char × List Char)
  | [] => none
  | c :: rest =>
    if c = sep then some ([], rest)
    else (breakFirst sep rest).map (fun p => (c :: p.1, p.2))

/-- Model of `new URL(s)` for the subset described at `URLParts`:
`protocol` keeps its trailing colon, userinfo ends at the last `@` of the
authority, the port is validated as digits and normalized (leading zeros
dropped, the scheme's default port elided), and `none` models the
constructor throwing on a malformed URL. -/
def parseURL (s : String) : Option URLParts :=
  match breakSchemeSep s.data with
  | none => none
  | some (scheme, rest) =>
    if scheme.isEmpty then none
    else
      let authority := rest.takeWhile (fun c => !(c = '/' || c = '?' || c = '#'))
      let userinfoHostport :=
        match breakLast '@' authority with
        | some (u, hp) => (u, hp)
        | none => ([], authority)
      let userPass :=
        match breakFirst ':' userinfoHostport.1 with
        | some (u, p) => (u, p)
        | none => (userinfoHostport.1, [])
      let hostPort :=
        match breakLast ':' userinfoHostport.2 with
        | some (h, p) => (h, p)
        | none => (userinfoHostport.2, [])
      if hostPort.1.isEmpty then none
      else if !(hostPort.2.all isDigitChar) then none
      else
        let port : List Char :=
          if hostPort.2.isEmpty then []
          else
            let n := (parseDigits hostPort.2 0).1
            if (scheme == ['h', 't', 't', 'p'] && n == 80) || (scheme == ['h', 't', 't', 'p', 's'] && n == 443) then []
            else natToChars n
        some { protocol := ⟨scheme ++ [':']⟩, hostname := ⟨hostPort.1⟩, port := ⟨port⟩,
               username := ⟨userPass.1⟩, password := ⟨userPass.2⟩ }

/-- The dispatcher's proxy selection (`_sendRequest`, lines 130-159):
`HTTP_PROXY` with `HTTPS_PROXY` as fallback, a bypass flag computed by a
loop over the comma-split `NO_PROXY` doing plain substring matching
against the target URL, and agent options that clear the proxy URL's
username and password. -/
def resolveProxy (url : String) (env : ProxyEnv) : ProxyDecision :=
  let proxyEnv := if envTruthy env.httpProxyVar then env.httpProxyVar else env.httpsProxyVar
  let noProxyEnv : Option (List (List Char)) :=
    if envTruthy env.noProxyVar then some (splitComma (env.noProxyVar.getD "").data) else none
  let noProxy :=
    match noProxyEnv with
    | some l => l.foldl (fun acc s => if hasSubstrChars s url.data then true else acc) false
    | none => false
  if envTruthy proxyEnv && !noProxy then
    match proxyEnv with
    | some purl =>
      match parseURL purl with
      | some u => .useProxy { protocol := u.protocol, hostname := u.hostname, port := u.port,
                              username := none, password := none }
      | none => .invalid
    | none => .direct
  else .direct

/-- Proxy decision rule as the specification words it: no proxy variable
set means direct; otherwise a target URL containing any comma-separated
bypass fragment of the no-proxy variable means direct; otherwise use the
proxy with protocol, hostname and port parsed from the proxy URL and the
username and password cleared. -/
def specProxyDecision (url : String) (env : ProxyEnv) : ProxyDecision :=
  let proxyUrl : Option String :=
    if envTruthy env.httpProxyVar then env.httpProxyVar
    else if envTruthy env.httpsProxyVar then env.httpsProxyVar
    else none
  match proxyUrl with
  | none => .direct
  | some purl =>
    let bypass : List (List Char) :=
      match env.noProxyVar with
      | none => []
      | some s => if s.data.isEmpty then [] else splitComma s.data
    if bypass.any (fun b => hasSubstrChars b url.data) then .direct
    else
      match parseURL purl with
      | none => .invalid
      | some u => .useProxy { protocol := u.protocol, hostname := u.hostname, port := u.port,
                              username := none, password := none }

/-- Bot identity supplied at construction. -/
structure BotConfig where
  name : JVal
  avatar : JVal
  authToken : String

/-- The client state set up by the `ViberClient` constructor.  `version` is
the package version used to build the user-agent string. -/
structure Client where
  bot : BotConfig
  url : String
  subscribedEvents : JVal
  version : String

/-- The constructor's user-agent string `ViberBot-Node/<version>`. -/
def userAgent (c : Client) : String := "ViberBot-Node/" ++ c.version

/-- Name of the authentication-token request header. -/
def VIBER_AUTH_TOKEN_HEADER : String := "X-Viber-Auth-Token"

/-- Maximum number of ids accepted by `getOnlineStatus`. -/
def MAX_GET_ONLINE_IDS : Nat := 100

/-- The Endpoint Table. -/
def API_ENDPOINTS : List (String × String) :=
  [("setWebhook", "/set_webhook"),
   ("getAccountInfo", "/get_account_info"),
   ("getUserDetails", "/get_user_details"),
   ("getOnlineStatus", "/get_online"),
   ("sendMessage", "/send_message"),
   ("post", "/post")]

/-- Lookup of an operation name in the Endpoint Table. -/
def lookupEndpoint (endpoint : String) : Option String :=
  (API_ENDPOINTS.find? (fun p => p.1 == endpoint)).map (fun p => p.2)

/-- The outgoing request envelope `_sendRequest` builds: target URL, JSON
body, headers, and the proxy decision. -/
structure Envelope where
  url : String
  body : List (String × JVal)
  headers : List (String × String)
  proxy : ProxyDecision

/-- Envelope construction in `_sendRequest`: endpoint lookup, the body
`Object.assign({auth_token: <bot token>}, data)`, the auth-token and
user-agent headers, and the proxy decision for the target URL; `none` when
the operation name is not in the Endpoint Table. -/
def requestEnvelope (c : Client) (env : ProxyEnv) (endpoint : String)
    (data : List (String × JVal)) : Option Envelope :=
  match lookupEndpoint endpoint with
  | none => none
  | some suffix =>
    let url := c.url ++ suffix
    some { url := url,
           body := objAssign [("auth_token", .str c.bot.authToken)] data,
           headers := [(VIBER_AUTH_TOKEN_HEADER, c.bot.authToken), ("User-Agent", userAgent c)],
           proxy := resolveProxy url env }

/-- Failure channel of a dispatched call: unknown endpoint (rejected before
any network activity), the generic response error for a non-200 status, or
a transport error propagated unchanged. -/
inductive DispatchErr (ε : Type) where
  | unknownEndpoint (endpoint : String) : DispatchErr ε
  | responseError : DispatchErr ε
  | transport (e : ε) : DispatchErr ε
deriving DecidableEq

/-- The dispatcher `_sendRequest`: reject unknown endpoints without calling
the transport; otherwise post the envelope through the transport
collaborator and normalize the outcome — status 200 resolves with the
parsed body, any other status rejects with the generic response error, and
a transport failure is re-raised as-is. -/
def sendRequest {ε : Type} (c : Client) (env : ProxyEnv)
    (transport : Envelope → Except ε (Nat × JVal)) (endpoint : String)
    (data : List (String × JVal)) : Except (DispatchErr ε) JVal :=
  match requestEnvelope c env endpoint data with
  | none => .error (.unknownEndpoint endpoint)
  | some envl =>
    match transport envl with
    | .ok (statusCode, body) => if statusCode ≠ 200 then .error .responseError else .ok body
    | .error e => .error (.transport e)

/-- Observable outcome of an API-surface method before the network round
trip: a synchronous throw, a rejected promise returned without dispatching,
or a delegation to `_sendRequest` with an operation name and payload. -/
inductive Call where
  | thrown (msg : String) : Call
  | rejected (msg : String) : Call
  | delegated (endpoint : String) (data : List (String × JVal)) : Call

/-- Whether a call outcome is a synchronous throw. -/
def Call.isThrown : Call → Bool
  | .thrown _ => true
  | _ => false

/-- Whether a call outcome is a rejected promise. -/
def Call.isRejected : Call → Bool
  | .rejected _ => true
  | _ => false

/-- `setWebhook`. -/
def setWebhook (c : Client) (url isInline : JVal) : Call :=
  .delegated "setWebhook" [("url", url), ("is_inline", isInline), ("event_types", c.subscribedEvents)]

/-- Index/value pairs contributed by an array-like `Object.assign`
source. -/
def indexKeys : Nat → List JVal → List (String × JVal)
  | _, [] => []
  | i, v :: vs => (⟨natToChars i⟩, v) :: indexKeys (i + 1) vs

/-- Own enumerable key/value pairs of an `Object.assign` source: an
object's properties, an array's or string's indexed elements, and nothing
for primitives, `null` or `undefined`. -/
def assignSource : JVal → List (String × JVal)
  | .obj fs => fs
  | .arr xs => indexKeys 0 xs
  | .str s => indexKeys 0 (s.data.map (fun ch => .str ⟨[ch]⟩))
  | _ => []

/-- The `request` object `sendMessage` builds before merging the
message-type-specific data: sender identity from the bot, serialized
tracking data, keyboard, chat id and minimal API version, plus the receiver
when one was given. -/
def sendMessageRequest (c : Client) (optionalReceiver optionalTrackingData optionalKeyboard optionalChatId optionalMinApiVersion : JVal) : List (String × JVal) :=
  let request : List (String × JVal) :=
    [("sender", .obj [("name", c.bot.name), ("avatar", c.bot.avatar)]),
     ("tracking_data", .str (serializeTrackingData optionalTrackingData)),
     ("keyboard", optionalKeyboard),
     ("chat_id", optionalChatId),
     ("min_api_version", optionalMinApiVersion)]
  if truthy optionalReceiver then objSet request "receiver" optionalReceiver else request

/-- `sendMessage`: three argument validations, each returning a rejected
promise, then delegation with the request merged with the message data. -/
def sendMessage (c : Client) (optionalReceiver messageType messageData optionalTrackingData optionalKeyboard optionalChatId optionalMinApiVersion : JVal) : Call :=
  if !truthy optionalReceiver && !truthy optionalChatId then
    .rejected "Invalid arguments passed to sendMessage. \x27optionalReceiver\x27 and \x27chatId\x27 are Missing."
  else if truthy messageType && !truthy messageData then
    .rejected "Invalid arguments passed to sendMessage. \x27MessageData\x27 is Missing."
  else if !truthy messageType && !truthy messageData && !truthy optionalKeyboard then
    .rejected "Invalid arguments passed to sendMessage. \x27MessageData\x27,\x27messageType\x27 are Missing and there\x27s no keyboard."
  else
    .delegated "sendMessage"
      (objAssign
        (sendMessageRequest c optionalReceiver optionalTrackingData optionalKeyboard optionalChatId optionalMinApiVersion)
        (assignSource messageData))

/-- `getAccountInfo`. -/
def getAccountInfo : Call := .delegated "getAccountInfo" []

/-- `getUserDetails`: a falsy user id throws synchronously; otherwise the
call delegates with the id in the body. -/
def getUserDetails (viberUserId : JVal) : Call :=
  if !truthy viberUserId then .thrown "Missing user id"
  else .delegated "getUserDetails" [("id", viberUserId)]

/-- `getOnlineStatus`: a non-array argument is wrapped into a one-element
list, then an empty list or more than `MAX_GET_ONLINE_IDS` ids throw
synchronously; otherwise the call delegates with the ids list. -/
def getOnlineStatus (viberUserIds : JVal) : Call :=
  let ids : List JVal :=
    match viberUserIds with
    | .arr xs => xs
    | v => [v]
  if ids.isEmpty then .thrown "Empty or no user ids passed to getOnlineStatus"
  else if ids.length > MAX_GET_ONLINE_IDS then .thrown "Can only check up to 100 ids per request"
  else .delegated "getOnlineStatus" [("ids", .arr ids)]

/-- Helper: a list whose length is 100 is not empty. -/
theorem isEmpty_false_of_length_pos {α : Type} (xs : List α) (h : 0 < xs.length) :
    xs.isEmpty = false := by
  cases xs with
  | nil => simp at h
  | cons a as => rfl

/-- Helper: `getOnlineStatus` on a non-array value delegates with the value
wrapped into a one-element ids list. -/
theorem getOnlineStatus_single (v : JVal) (hv : isArr v = false) :
    getOnlineStatus v = .delegated "getOnlineStatus" [("ids", .arr [v])] := by
  cases v with
  | arr xs => simp [isArr] at hv
  | undef => rfl
  | null => rfl
  | bool b => rfl
  | num n => rfl
  | str s => rfl
  | obj fs => rfl

/-- C4: for every operation name not present in the Endpoint Table,
`_sendRequest` rejects with an unknown-endpoint error, and does so
identically for every transport collaborator — the transport is never
invoked. -/
theorem unknownEndpoint_rejects_without_transport {ε : Type} (c : Client) (env : ProxyEnv)
    (endpoint : String) (data : List (String × JVal)) (h : lookupEndpoint endpoint = none) :
    ∀ transport : Envelope → Except ε (Nat × JVal),
      sendRequest c env transport endpoint data = .error (.unknownEndpoint endpoint) := by
  intro transport
  unfold sendRequest requestEnvelope
  rw [h]

/-- Witness for C4 at the unknown operation name `"bogusEndpoint"`. -/
theorem unknownEndpoint_rejects_without_transport_witness :
    sendRequest (ε := String)
      { bot := { name := .str "b", avatar := .str "a", authToken := "T" }, url := "https://chatapi.viber.com/pa",
        subscribedEvents := .arr [], version := "1.0.0" }
      { httpProxyVar := none, httpsProxyVar := none, noProxyVar := none }
      (fun _ => .ok (200, .null)) "bogusEndpoint" [] = .error (.unknownEndpoint "bogusEndpoint") :=
  unknownEndpoint_rejects_without_transport _ _ "bogusEndpoint" [] rfl (fun _ => .ok (200, .null))

/-- C3: for every dispatched request to a known endpoint, a transport
status of 200 resolves with the parsed body, any other status rejects with
the generic response error (a constructor carrying no detail, in particular
no status code), and a transport failure rejects with exactly that
failure. -/
theorem dispatch_response_normalization {ε : Type} (c : Client) (env : ProxyEnv)
    (endpoint path : String) (data : List (String × JVal))
    (h : lookupEndpoint endpoint = some path) :
    (∀ body : JVal, sendRequest (ε := ε) c env (fun _ => .ok (200, body)) endpoint data = .ok body) ∧
    (∀ (status : Nat) (body : JVal), status ≠ 200 →
      sendRequest (ε := ε) c env (fun _ => .ok (status, body)) endpoint data = .error .responseError) ∧
    (∀ e : ε, sendRequest c env (fun _ => .error e) endpoint data = .error (.transport e)) := by
  refine ⟨?_, ?_, ?_⟩
  · intro body
    unfold sendRequest requestEnvelope
    rw [h]
    simp
  · intro status body hs
    unfold sendRequest requestEnvelope
    rw [h]
    simp [hs]
  · intro e
    unfold sendRequest requestEnvelope
    rw [h]

/-- Witness for C3 at `getAccountInfo`, with the body from the
specification's example, a 400 status, and a simulated transport
exception. -/
theorem dispatch_response_normalization_witness :
    (sendRequest (ε := String)
      { bot := { name := .str "b", avatar := .str "a", authToken := "T" }, url := "https://chatapi.viber.com/pa",
        subscribedEvents := .arr [], version := "1.0.0" }
      { httpProxyVar := none, httpsProxyVar := none, noProxyVar := none }
      (fun _ => .ok (200, .obj [("status", .num 0)])) "getAccountInfo" [] = .ok (.obj [("status", .num 0)])) ∧
    (sendRequest (ε := String)
      { bot := { name := .str "b", avatar := .str "a", authToken := "T" }, url := "https://chatapi.viber.com/pa",
        subscribedEvents := .arr [], version := "1.0.0" }
      { httpProxyVar := none, httpsProxyVar := none, noProxyVar := none }
      (fun _ => .ok (400, .obj [("status", .num 3)])) "getAccountInfo" [] = .error .responseError) ∧
    (sendRequest (ε := String)
      { bot := { name := .str "b", avatar := .str "a", authToken := "T" }, url := "https://chatapi.viber.com/pa",
        subscribedEvents := .arr [], version := "1.0.0" }
      { httpProxyVar := none, httpsProxyVar := none, noProxyVar := none }
      (fun _ => .error "socket hang up") "getAccountInfo" [] = .error (.transport "socket hang up")) :=
  ⟨(dispatch_response_normalization _ _ "getAccountInfo" "/get_account_info" [] rfl).1 _,
   (dispatch_response_normalization _ _ "getAccountInfo" "/get_account_info" [] rfl).2.1 400 _ (by decide),
   (dispatch_response_normalization _ _ "getAccountInfo" "/get_account_info" [] rfl).2.2 "socket hang up"⟩

/-- C9: `getUserDetails` throws synchronously on every falsy user id and
delegates with body field `id` set to the user id on every truthy one. -/
theorem getUserDetails_validation (v : JVal) :
    (truthy v = false → getUserDetails v = .thrown "Missing user id") ∧
    (truthy v = true → getUserDetails v = .delegated "getUserDetails" [("id", v)]) := by
  constructor <;> intro h <;> simp [getUserDetails, h]

/-- Witness for C9 at the falsy id `null` and the truthy id `"uid"`. -/
theorem getUserDetails_validation_witness :
    getUserDetails .null = .thrown "Missing user id" ∧
    getUserDetails (.str "uid") = .delegated "getUserDetails" [("id", .str "uid")] :=
  ⟨(getUserDetails_validation .null).1 rfl, (getUserDetails_validation (.str "uid")).2 rfl⟩

/-- C10: a single non-array id — including falsy values — never throws at
validation: it is wrapped into a one-element list first, so the call
delegates with that one-element ids list. -/
theorem getOnlineStatus_wraps_single_id (v : JVal) (hv : isArr v = false) :
    getOnlineStatus v = .delegated "getOnlineStatus" [("ids", .arr [v])] :=
  getOnlineStatus_single v hv

/-- Witness for C10 at the falsy non-array values `null` and `undefined`. -/
theorem getOnlineStatus_wraps_single_id_witness :
    getOnlineStatus .null = .delegated "getOnlineStatus" [("ids", .arr [.null])] ∧
    getOnlineStatus .undef = .delegated "getOnlineStatus" [("ids", .arr [.undef])] :=
  ⟨getOnlineStatus_wraps_single_id .null rfl, getOnlineStatus_wraps_single_id .undef rfl⟩

/-- C5: `getOnlineStatus` throws synchronously on an empty ids list and on
more than 100 ids, passes validation and delegates with the full list at
exactly 100 ids, and wraps a single non-array id into a one-element list
before delegating. -/
theorem getOnlineStatus_validation (xs ys : List JVal) (v : JVal)
    (h100 : xs.length = 100) (hover : ys.length > 100) (hv : isArr v = false) :
    getOnlineStatus (.arr []) = .thrown "Empty or no user ids passed to getOnlineStatus" ∧
    getOnlineStatus (.arr ys) = .thrown "Can only check up to 100 ids per request" ∧
    getOnlineStatus (.arr xs) = .delegated "getOnlineStatus" [("ids", .arr xs)] ∧
    getOnlineStatus v = .delegated "getOnlineStatus" [("ids", .arr [v])] := by
  refine ⟨rfl, ?_, ?_, getOnlineStatus_single v hv⟩
  · have hne : ys.isEmpty = false := isEmpty_false_of_length_pos ys (by omega)
    simp [getOnlineStatus, hne, MAX_GET_ONLINE_IDS, hover]
  · have hne : xs.isEmpty = false := isEmpty_false_of_length_pos xs (by omega)
    have hle : ¬(xs.length > MAX_GET_ONLINE_IDS) := by simp [MAX_GET_ONLINE_IDS]; omega
    simp [getOnlineStatus, hne, hle]

/-- Witness for C5 with 100 ids, 101 ids, and the single id `"user-id"`. -/
theorem getOnlineStatus_validation_witness :
    getOnlineStatus (.arr []) = .thrown "Empty or no user ids passed to getOnlineStatus" ∧
    getOnlineStatus (.arr (List.replicate 101 (.str "u"))) = .thrown "Can only check up to 100 ids per request" ∧
    getOnlineStatus (.arr (List.replicate 100 (.str "u"))) =
      .delegated "getOnlineStatus" [("ids", .arr (List.replicate 100 (.str "u")))] ∧
    getOnlineStatus (.str "user-id") = .delegated "getOnlineStatus" [("ids", .arr [.str "user-id"])] :=
  getOnlineStatus_validation (List.replicate 100 (.str "u")) (List.replicate 101 (.str "u"))
    (.str "user-id") (by simp) (by simp) rfl

/-- C6: `sendMessage` never throws synchronously, and returns a rejected
promise (before any delegation to the dispatcher, hence with no network
call) exactly when receiver and chat id are both falsy, or a message type
is given without message data, or message type, message data and keyboard
are all falsy; in particular it passes validation when a chat id is given
with data but no receiver. -/
theorem sendMessage_validation (c : Client) (receiver msgType msgData tracking keyboard chatId minApi : JVal) :
    (sendMessage c receiver msgType msgData tracking keyboard chatId minApi).isThrown = false ∧
    ((sendMessage c receiver msgType msgData tracking keyboard chatId minApi).isRejected =
      ((!truthy receiver && !truthy chatId) || (truthy msgType && !truthy msgData) ||
       (!truthy msgType && !truthy msgData && !truthy keyboard))) ∧
    (sendMessage c .undef (.str "text") (.obj [("text", .str "hi")]) tracking keyboard (.str "chat-id") minApi).isRejected = false := by
  refine ⟨?_, ?_, rfl⟩ <;>
    cases hR : truthy receiver <;> cases hC : truthy chatId <;> cases hT : truthy msgType <;>
      cases hD : truthy msgData <;> cases hK : truthy keyboard <;>
      simp [sendMessage, hR, hC, hT, hD, hK, Call.isThrown, Call.isRejected]

/-- Helper: assigning a key makes lookup of that key return the assigned
value. -/
theorem objLookup_objSet_self (o : List (String × JVal)) (k : String) (v : JVal) :
    objLookup k (objSet o k v) = some v := by
  induction o with
  | nil => simp [objSet, hasKey, objLookup]
  | cons p rest ih =>
    by_cases hk : p.1 = k
    · simp [objSet, hasKey, hk, objLookup]
    · have h2 : hasKey k (p :: rest) = hasKey k rest := by
        simp [hasKey, hk]
      by_cases hres : hasKey k rest
      · have : objSet (p :: rest) k v = p :: objSet rest k v := by
          simp [objSet, h2, hres, hk]
        rw [this, objLookup, if_neg hk]
        simpa [objSet, hres] using ih
      · have : objSet (p :: rest) k v = p :: (rest ++ [(k, v)]) := by
          simp [objSet, h2, hres]
        rw [this, objLookup, if_neg hk]
        simpa [objSet, hres] using ih

/-- Helper: updating a key in place leaves lookup of any other key
unchanged. -/
theorem objLookup_map_update (o : List (String × JVal)) (k k2 : String) (v : JVal)
    (hne : k2 ≠ k) :
    objLookup k2 (o.map (fun p => if p.1 = k then (k, v) else p)) = objLookup k2 o := by
  induction o with
  | nil => rfl
  | cons p rest ih =>
    by_cases hk : p.1 = k
    · have h1 : ¬(k = k2) := fun h => hne h.symm
      have h2 : ¬(p.1 = k2) := by rw [hk]; exact h1
      simp only [List.map_cons, if_pos hk]
      simp [objLookup, h1, h2, ih]
    · simp only [List.map_cons, if_neg hk]
      by_cases hp : p.1 = k2 <;> simp [objLookup, hp, ih]

/-- Helper: appending a pair with a different key leaves lookup
unchanged. -/
theorem objLookup_append_single (o : List (String × JVal)) (k k2 : String) (v : JVal)
    (hne : k2 ≠ k) :
    objLookup k2 (o ++ [(k, v)]) = objLookup k2 o := by
  induction o with
  | nil =>
    simp only [List.nil_append, objLookup]
    rw [if_neg (fun h => hne (Eq.symm h))]
  | cons p rest ih =>
    by_cases hp : p.1 = k2 <;> simp [objLookup, hp, ih]

/-- Helper: assigning a key leaves lookup of any other key unchanged. -/
theorem objLookup_objSet_other (o : List (String × JVal)) (k k2 : String) (v : JVal)
    (hne : k2 ≠ k) : objLookup k2 (objSet o k v) = objLookup k2 o := by
  unfold objSet
  split
  · exact objLookup_map_update o k k2 v hne
  · exact objLookup_append_single o k k2 v hne

/-- Helper: assigning a list of pairs none of which uses the key leaves
lookup of that key at the target's value. -/
theorem objLookup_objAssign_of_absent (s : List (String × JVal)) (t : List (String × JVal))
    (k : String) (h : objLookup k s = none) :
    objLookup k (objAssign t s) = objLookup k t := by
  induction s generalizing t with
  | nil => rfl
  | cons p rest ih =>
    have hk : p.1 ≠ k := by
      intro hpk
      simp [objLookup, hpk] at h
    have h2 : objLookup k rest = none := by
      simpa [objLookup, hk] using h
    have hfold : objAssign t (p :: rest) = objAssign (objSet t p.1 p.2) rest := by
      simp [objAssign]
    rw [hfold, ih _ h2, objLookup_objSet_other _ _ _ _ (Ne.symm hk)]

/-- Helper: assignment preserves the presence of a key in the target. -/
theorem objLookup_objAssign_isSome (s : List (String × JVal)) (t : List (String × JVal))
    (k : String) (h : (objLookup k t).isSome = true) :
    (objLookup k (objAssign t s)).isSome = true := by
  induction s generalizing t with
  | nil => exact h
  | cons p rest ih =>
    have hfold : objAssign t (p :: rest) = objAssign (objSet t p.1 p.2) rest := by
      simp [objAssign]
    rw [hfold]
    refine ih _ ?_
    by_cases hk : p.1 = k
    · rw [hk, objLookup_objSet_self]
      rfl
    · rw [objLookup_objSet_other _ _ _ _ (Ne.symm hk)]
      exact h

/-- C1 (amended): every envelope body for a known endpoint contains an
`auth_token` field, and that field equals the configured bot's token
whenever the caller's payload does not itself supply an `auth_token` key;
a payload-supplied `auth_token` overrides the bot's token, because the
body is `Object.assign({auth_token}, payload)` and payload keys win on
every conflict. -/
theorem auth_token_injection (c : Client) (env : ProxyEnv) (endpoint path : String)
    (data : List (String × JVal)) (h : lookupEndpoint endpoint = some path) :
    (∃ e, requestEnvelope c env endpoint data = some e ∧
      (objLookup "auth_token" e.body).isSome = true) ∧
    (objLookup "auth_token" data = none →
      ∃ e, requestEnvelope c env endpoint data = some e ∧
        objLookup "auth_token" e.body = some (.str c.bot.authToken)) := by
  constructor
  · refine ⟨_, by unfold requestEnvelope; rw [h], ?_⟩
    exact objLookup_objAssign_isSome data _ _ (by simp [objLookup])
  · intro hno
    refine ⟨_, by unfold requestEnvelope; rw [h], ?_⟩
    rw [show (objAssign [("auth_token", JVal.str c.bot.authToken)] data) =
          objAssign [("auth_token", JVal.str c.bot.authToken)] data from rfl]
    rw [objLookup_objAssign_of_absent data _ _ hno]
    simp [objLookup]

/-- Counterexample to C1 as stated: a payload that supplies its own
`auth_token` key overrides the configured bot token `"TOKEN"` — the
outgoing body carries the payload's value `"EVIL"`, not the bot's. -/
theorem auth_token_injection_counterexample :
    (requestEnvelope
      { bot := { name := .str "b", avatar := .str "a", authToken := "TOKEN" },
        url := "https://chatapi.viber.com/pa", subscribedEvents := .arr [], version := "1.0.0" }
      { httpProxyVar := none, httpsProxyVar := none, noProxyVar := none }
      "sendMessage" [("auth_token", .str "EVIL")]).map (fun e => objLookup "auth_token" e.body) =
      some (some (.str "EVIL")) ∧
    JVal.str "EVIL" ≠ JVal.str "TOKEN" := by
  exact ⟨rfl, by simp⟩

/-- Witness for C1's amended theorem at the `sendMessage` endpoint with an
`auth_token`-free payload. -/
theorem auth_token_injection_witness :
    (requestEnvelope
      { bot := { name := .str "b", avatar := .str "a", authToken := "TOKEN" },
        url := "https://chatapi.viber.com/pa", subscribedEvents := .arr [], version := "1.0.0" }
      { httpProxyVar := none, httpsProxyVar := none, noProxyVar := none }
      "sendMessage" [("text", .str "hi")]).map (fun e => objLookup "auth_token" e.body) =
      some (some (.str "TOKEN")) := by
  obtain ⟨e, he, hl⟩ := (auth_token_injection
    { bot := { name := .str "b", avatar := .str "a", authToken := "TOKEN" },
      url := "https://chatapi.viber.com/pa", subscribedEvents := .arr [], version := "1.0.0" }
    { httpProxyVar := none, httpsProxyVar := none, noProxyVar := none }
    "sendMessage" "/send_message" [("text", .str "hi")] rfl).2 rfl
  rw [he]
  simp only [Option.map]
  rw [hl]

/-- Helper: the `tracking_data` field of the request `sendMessage` builds
holds exactly the serialized tracking data, whether or not a receiver is
added. -/
theorem lookup_tracking_data (c : Client) (receiver td keyboard chatId minApi : JVal) :
    objLookup "tracking_data" (sendMessageRequest c receiver td keyboard chatId minApi) =
      some (.str (serializeTrackingData td)) := by
  unfold sendMessageRequest
  by_cases h : truthy receiver = true
  · simp only [h, if_pos]
    rw [objLookup_objSet_other _ _ _ _ (by decide)]
    simp [objLookup]
  · simp only [h]
    simp [objLookup]

/-- C7: tracking-data serialization maps `null`, `undefined` and the empty
object to the JSON text of the empty string — the two-character text
consisting of two quotation marks, never the JSON `null` — and the
`tracking_data` field of every message request built from one of those
three values holds exactly that text. -/
theorem tracking_data_empty_serialization (c : Client) (receiver keyboard chatId minApi : JVal) :
    serializeTrackingData .null = ⟨[dquote, dquote]⟩ ∧
    serializeTrackingData .undef = ⟨[dquote, dquote]⟩ ∧
    serializeTrackingData (.obj []) = ⟨[dquote, dquote]⟩ ∧
    (⟨[dquote, dquote]⟩ : String) ≠ ⟨stringifyVal .null⟩ ∧
    (∀ td : JVal, td = .null ∨ td = .undef ∨ td = .obj [] →
      objLookup "tracking_data" (sendMessageRequest c receiver td keyboard chatId minApi) =
        some (.str ⟨[dquote, dquote]⟩)) := by
  refine ⟨rfl, rfl, rfl, by decide, ?_⟩
  intro td htd
  rcases htd with h | h | h <;> rw [h, lookup_tracking_data] <;> rfl

/-- Witness for C7 with the tracking value `null` on a request with a chat
id and no receiver. -/
theorem tracking_data_empty_serialization_witness :
    serializeTrackingData .null = ⟨[dquote, dquote]⟩ ∧
    objLookup "tracking_data"
      (sendMessageRequest
        { bot := { name := .str "b", avatar := .str "a", authToken := "T" },
          url := "https://chatapi.viber.com/pa", subscribedEvents := .arr [], version := "1.0.0" }
        .undef .null .undef (.str "chat-id") .undef) = some (.str ⟨[dquote, dquote]⟩) :=
  ⟨(tracking_data_empty_serialization
      { bot := { name := .str "b", avatar := .str "a", authToken := "T" },
        url := "https://chatapi.viber.com/pa", subscribedEvents := .arr [], version := "1.0.0" }
      .undef .undef (.str "chat-id") .undef).1,
   (tracking_data_empty_serialization
      { bot := { name := .str "b", avatar := .str "a", authToken := "T" },
        url := "https://chatapi.viber.com/pa", subscribedEvents := .arr [], version := "1.0.0" }
      .undef .undef (.str "chat-id") .undef).2.2.2.2 .null (Or.inl rfl)⟩

/-- Helper: the flag-accumulating bypass loop equals an existential scan
over the bypass list. -/
theorem foldl_bypass_eq_any (url : List Char) (l : List (List Char)) (acc : Bool) :
    l.foldl (fun acc s => if hasSubstrChars s url then true else acc) acc =
      (acc || l.any (fun b => hasSubstrChars b url)) := by
  induction l generalizing acc with
  | nil => simp
  | cons x xs ih =>
    rw [List.foldl_cons, ih]
    by_cases h : hasSubstrChars x url = true <;> simp [h]

/-- Helper: a truthy environment variable is present. -/
theorem envTruthy_some (o : Option String) (h : envTruthy o = true) : ∃ s, o = some s := by
  cases o with
  | none => simp [envTruthy] at h
  | some s => exact ⟨s, rfl⟩

/-- C2: the dispatcher's proxy selection computes exactly the decision rule
the specification states — direct when no proxy variable is set (HTTP with
HTTPS as fallback), direct when the target URL contains any comma-separated
fragment of the no-proxy variable, and otherwise a proxy connection with
protocol, hostname and port parsed from the proxy URL and the username and
password cleared even when the proxy URL carries credentials. -/
theorem proxy_decision_matches_spec (url : String) (env : ProxyEnv) :
    resolveProxy url env = specProxyDecision url env := by
  have hflag :
      (match (if envTruthy env.noProxyVar then some (splitComma ((env.noProxyVar.getD "").data)) else none : Option (List (List Char))) with
        | some l => l.foldl (fun acc s => if hasSubstrChars s url.data then true else acc) false
        | none => false) =
      ((match env.noProxyVar with
        | none => ([] : List (List Char))
        | some s => if s.data.isEmpty then [] else splitComma s.data).any
          (fun b => hasSubstrChars b url.data)) := by
    cases hn : env.noProxyVar with
    | none => simp [envTruthy]
    | some s =>
      cases hs : s.data.isEmpty with
      | false =>
        have ht : envTruthy (some s) = true := by simp [envTruthy, hs]
        simp only [ht, if_pos, Option.getD_some, hs]
        rw [foldl_bypass_eq_any]
        simp
      | true =>
        have ht : envTruthy (some s) = false := by simp [envTruthy, hs]
        simp [ht, hs]
  cases h1 : envTruthy env.httpProxyVar
  · cases h2 : envTruthy env.httpsProxyVar
    · simp [resolveProxy, specProxyDecision, h1, h2]
    · obtain ⟨sS, hS⟩ := envTruthy_some _ h2
      rw [hS] at h2
      simp only [resolveProxy, specProxyDecision, h1, h2, hS]
      rw [hflag]
      cases hB : ((match env.noProxyVar with
        | none => ([] : List (List Char))
        | some s => if s.data.isEmpty then [] else splitComma s.data).any
          (fun b => hasSubstrChars b url.data)) <;>
        cases hP : parseURL sS <;> simp [hB, hP, h2]
  · obtain ⟨sH, hH⟩ := envTruthy_some _ h1
    rw [hH] at h1
    simp only [resolveProxy, specProxyDecision, h1, hH]
    rw [hflag]
    cases hB : ((match env.noProxyVar with
      | none => ([] : List (List Char))
      | some s => if s.data.isEmpty then [] else splitComma s.data).any
        (fun b => hasSubstrChars b url.data)) <;>
      cases hP : parseURL sH <;> simp [hB, hP, h1]

/-- Helper: digit characters print as digits. -/
theorem digit_isDigit : ∀ n, n < 10 → isDigitChar (digitChar n) = true := by decide

/-- Helper: reading back a printed digit. -/
theorem digit_charDigit : ∀ n, n < 10 → charDigit (digitChar n) = n := by decide

/-- Helper: the digit scanner stops at a non-digit head. -/
theorem parseDigits_stop (rest : List Char) (acc : Nat) (h : digitHead rest = false) :
    parseDigits rest acc = (acc, rest) := by
  cases rest with
  | nil => rfl
  | cons c t =>
    rw [parseDigits, if_neg]
    simp only [digitHead] at h
    simp [h]

/-- Helper: scanning a printed natural accumulates its value. -/
theorem parseDigits_natToCharsAux : ∀ f n, n < f → ∀ rest acc,
    parseDigits (natToCharsAux f n ++ rest) acc =
      parseDigits rest (acc * 10 ^ (natToCharsAux f n).length + n) := by
  intro f
  induction f with
  | zero => intro n h; omega
  | succ f ih =>
    intro n h rest acc
    by_cases h10 : n < 10
    · rw [natToCharsAux, if_pos h10]
      simp only [List.singleton_append, List.length_singleton]
      rw [parseDigits, if_pos (digit_isDigit n h10), digit_charDigit n h10]
      norm_num
    · rw [natToCharsAux, if_neg h10]
      have hrec : n / 10 < f := by omega
      have hm : n % 10 < 10 := by omega
      rw [List.append_assoc, List.singleton_append, ih (n / 10) hrec, parseDigits,
        if_pos (digit_isDigit _ hm), digit_charDigit _ hm]
      have harith : (acc * 10 ^ (natToCharsAux f (n / 10)).length + n / 10) * 10 + n % 10 =
          acc * 10 ^ (natToCharsAux f (n / 10) ++ [digitChar (n % 10)]).length + n := by
        rw [List.length_append, List.length_singleton, pow_succ]
        have hd : n / 10 * 10 + n % 10 = n := by omega
        calc (acc * 10 ^ (natToCharsAux f (n / 10)).length + n / 10) * 10 + n % 10
            = acc * (10 ^ (natToCharsAux f (n / 10)).length * 10) + (n / 10 * 10 + n % 10) := by ring
          _ = acc * (10 ^ (natToCharsAux f (n / 10)).length * 10) + n := by rw [hd]
      rw [harith]

/-- Helper: scanning a printed natural followed by a non-digit yields the
natural back. -/
theorem parseDigits_natToChars (n : Nat) (rest : List Char) (h : digitHead rest = false) :
    parseDigits (natToChars n ++ rest) 0 = (n, rest) := by
  rw [natToChars, parseDigits_natToCharsAux (n + 1) n (by omega), parseDigits_stop rest _ h]
  norm_num

/-- Helper: a printed natural is a digit followed by more characters. -/
theorem natToCharsAux_shape : ∀ f n, n < f →
    ∃ d t, natToCharsAux f n = d :: t ∧ isDigitChar d = true := by
  intro f
  induction f with
  | zero => intro n h; omega
  | succ f ih =>
    intro n h
    by_cases h10 : n < 10
    · exact ⟨digitChar n, [], by rw [natToCharsAux, if_pos h10], digit_isDigit n h10⟩
    · obtain ⟨d, t, hdt, hd⟩ := ih (n / 10) (by omega)
      exact ⟨d, t ++ [digitChar (n % 10)], by rw [natToCharsAux, if_neg h10, hdt]; rfl, hd⟩

/-- Helper: a digit character is none of the value-starting markers the
parser dispatches on. -/
theorem isDigitChar_markers (c : Char) (h : isDigitChar c = true) :
    (c = 'n') = False ∧ (c = 't') = False ∧ (c = 'f') = False ∧ (c = dquote) = False ∧
    (c = '[') = False ∧ (c = lbrace) = False ∧ (c = '-') = False := by
  refine ⟨?_, ?_, ?_, ?_, ?_, ?_, ?_⟩ <;>
    exact eq_false (fun he => by rw [he] at h; exact absurd h (by decide))

/-- Helper: hexadecimal digits read back to their values. -/
theorem hexVal_hexDigit : ∀ d, d < 16 → hexVal (hexDigit d) = some d := by decide

/-- Helper: decoding an escaped quotation mark. -/
theorem parseStringBody_escQ (L : List Char) :
    parseStringBody (bslash :: dquote :: L) = (parseStringBody L).map (fun p => (dquote :: p.1, p.2)) := by
  rw [parseStringBody.eq_def]
  simp [bslash, dquote]

/-- Helper: decoding an escaped backslash. -/
theorem parseStringBody_escBS (L : List Char) :
    parseStringBody (bslash :: bslash :: L) = (parseStringBody L).map (fun p => (bslash :: p.1, p.2)) := by
  rw [parseStringBody.eq_def]
  simp [bslash, dquote]

/-- Helper: decoding an escaped backspace. -/
theorem parseStringBody_escB (L : List Char) :
    parseStringBody (bslash :: 'b' :: L) = (parseStringBody L).map (fun p => (Char.ofNat 8 :: p.1, p.2)) := by
  rw [parseStringBody.eq_def]
  simp [bslash, dquote]

/-- Helper: decoding an escaped tab. -/
theorem parseStringBody_escT (L : List Char) :
    parseStringBody (bslash :: 't' :: L) = (parseStringBody L).map (fun p => (Char.ofNat 9 :: p.1, p.2)) := by
  rw [parseStringBody.eq_def]
  simp [bslash, dquote]

/-- Helper: decoding an escaped line feed. -/
theorem parseStringBody_escN (L : List Char) :
    parseStringBody (bslash :: 'n' :: L) = (parseStringBody L).map (fun p => (Char.ofNat 10 :: p.1, p.2)) := by
  rw [parseStringBody.eq_def]
  simp [bslash, dquote]

/-- Helper: decoding an escaped form feed. -/
theorem parseStringBody_escF (L : List Char) :
    parseStringBody (bslash :: 'f' :: L) = (parseStringBody L).map (fun p => (Char.ofNat 12 :: p.1, p.2)) := by
  rw [parseStringBody.eq_def]
  simp [bslash, dquote]

/-- Helper: decoding an escaped carriage return. -/
theorem parseStringBody_escR (L : List Char) :
    parseStringBody (bslash :: 'r' :: L) = (parseStringBody L).map (fun p => (Char.ofNat 13 :: p.1, p.2)) := by
  rw [parseStringBody.eq_def]
  simp [bslash, dquote]

/-- Helper: decoding a `\u00..` escape built from two hexadecimal
digits. -/
theorem parseStringBody_escU (d1 d2 : Nat) (L : List Char) (h1 : d1 < 16) (h2 : d2 < 16) :
    parseStringBody (bslash :: 'u' :: '0' :: '0' :: hexDigit d1 :: hexDigit d2 :: L) =
      (parseStringBody L).map (fun p => (Char.ofNat (16 * d1 + d2) :: p.1, p.2)) := by
  rw [parseStringBody.eq_def]
  simp only [bslash, dquote, show hexVal '0' = some 0 from by decide,
    hexVal_hexDigit d1 h1, hexVal_hexDigit d2 h2]
  simp only [show ((Char.ofNat 92 : Char) = Char.ofNat 34) = False from by decide,
    show ((Char.ofNat 92 : Char) = Char.ofNat 92) = True from by decide,
    show (('u' : Char) = Char.ofNat 34) = False from by decide,
    show (('u' : Char) = Char.ofNat 92) = False from by decide,
    show (('u' : Char) = '/') = False from by decide,
    show (('u' : Char) = 'b') = False from by decide,
    show (('u' : Char) = 't') = False from by decide,
    show (('u' : Char) = 'n') = False from by decide,
    show (('u' : Char) = 'f') = False from by decide,
    show (('u' : Char) = 'r') = False from by decide,
    show (('u' : Char) = 'u') = True from by decide,
    if_true, if_false]
  rw [if_pos (by omega)]
  have harith : ((0 * 16 + 0) * 16 + d1) * 16 + d2 = 16 * d1 + d2 := by ring
  rw [harith]

/-- Helper: decoding a character emitted literally. -/
theorem parseStringBody_plain (c : Char) (L : List Char) (h1 : c ≠ dquote) (h2 : c ≠ bslash)
    (h3 : ¬(c.toNat < 32)) :
    parseStringBody (c :: L) = (parseStringBody L).map (fun p => (c :: p.1, p.2)) := by
  rw [parseStringBody.eq_def]
  simp only []
  rw [if_neg h1, if_neg h2, if_neg h3]

/-- Helper: the body of a serialized string parses back to exactly that
string, leaving the input after the closing quotation mark. -/
theorem parseStringBody_escape : ∀ (s : List Char) (rest : List Char),
    parseStringBody (escapeList s ++ dquote :: rest) = some (s, rest) := by
  intro s
  induction s with
  | nil =>
    intro rest
    rw [escapeList, List.nil_append, parseStringBody.eq_def]
    simp
  | cons c s ih =>
    intro rest
    rw [escapeList, List.append_assoc]
    by_cases h1 : c = dquote
    · subst h1
      rw [show escapeChar dquote = [bslash, dquote] from by simp [escapeChar]]
      simp only [List.cons_append, List.nil_append]
      rw [parseStringBody_escQ, ih]
      rfl
    · by_cases h2 : c = bslash
      · subst h2
        rw [show escapeChar bslash = [bslash, bslash] from by simp [escapeChar, bslash, dquote]]
        simp only [List.cons_append, List.nil_append]
        rw [parseStringBody_escBS, ih]
        rfl
      · by_cases h3 : c = Char.ofNat 8
        · subst h3
          rw [show escapeChar (Char.ofNat 8) = [bslash, 'b'] from by decide]
          simp only [List.cons_append, List.nil_append]
          rw [parseStringBody_escB, ih]
          rfl
        · by_cases h4 : c = Char.ofNat 9
          · subst h4
            rw [show escapeChar (Char.ofNat 9) = [bslash, 't'] from by decide]
            simp only [List.cons_append, List.nil_append]
            rw [parseStringBody_escT, ih]
            rfl
          · by_cases h5 : c = Char.ofNat 10
            · subst h5
              rw [show escapeChar (Char.ofNat 10) = [bslash, 'n'] from by decide]
              simp only [List.cons_append, List.nil_append]
              rw [parseStringBody_escN, ih]
              rfl
            · by_cases h6 : c = Char.ofNat 12
              · subst h6
                rw [show escapeChar (Char.ofNat 12) = [bslash, 'f'] from by decide]
                simp only [List.cons_append, List.nil_append]
                rw [parseStringBody_escF, ih]
                rfl
              · by_cases h7 : c = Char.ofNat 13
                · subst h7
                  rw [show escapeChar (Char.ofNat 13) = [bslash, 'r'] from by decide]
                  simp only [List.cons_append, List.nil_append]
                  rw [parseStringBody_escR, ih]
                  rfl
                · by_cases h8 : c.toNat < 32
                  · rw [show escapeChar c = [bslash, 'u', '0', '0', hexDigit (c.toNat / 16), hexDigit (c.toNat % 16)] from by
                      rw [escapeChar, if_neg h1, if_neg h2, if_neg h3, if_neg h4, if_neg h5, if_neg h6, if_neg h7, if_pos h8]]
                    simp only [List.cons_append, List.nil_append]
                    rw [parseStringBody_escU _ _ _ (by omega) (by omega), ih]
                    have harith2 : 16 * (c.toNat / 16) + c.toNat % 16 = c.toNat := by omega
                    rw [harith2, Char.ofNat_toNat]
                    rfl
                  · rw [show escapeChar c = [c] from by
                      rw [escapeChar, if_neg h1, if_neg h2, if_neg h3, if_neg h4, if_neg h5, if_neg h6, if_neg h7, if_neg h8]]
                    simp only [List.cons_append, List.nil_append]
                    rw [parseStringBody_plain c _ h1 h2 h8, ih]
                    rfl

/-- Helper: every value has positive size. -/
theorem sizeJ_pos (v : JVal) : 0 < sizeJ v := by
  cases v <;> simp [sizeJ]

/-- Helper: `headIs` is false on a digit-headed list when the probe is not
a digit. -/
theorem headIs_false_of_digit (l : List Char) (c : Char) (hd : digitHead l = true)
    (hc : isDigitChar c = false) : headIs c l = false := by
  cases l with
  | nil => simp [digitHead] at hd
  | cons x t =>
    simp only [digitHead] at hd
    simp only [headIs]
    by_cases hx : x = c
    · rw [hx] at hd
      rw [hd] at hc
      exact absurd hc (by simp)
    · simp [hx]

/-- Helper: a printed natural starts with a digit. -/
theorem digitHead_natToChars (n : Nat) (t : List Char) : digitHead (natToChars n ++ t) = true := by
  obtain ⟨d, t2, hdt, hd⟩ := natToCharsAux_shape (n + 1) n (by omega)
  rw [natToChars, hdt]
  simpa [digitHead] using hd

/-- Helper: no serialized value starts with a closing square bracket. -/
theorem stringify_headIs_rbrack (v : JVal) (t : List Char) :
    headIs ']' (stringifyVal v ++ t) = false := by
  cases v with
  | undef => simp [stringifyVal, headIs]
  | null => simp [stringifyVal, headIs]
  | bool b => cases b <;> simp [stringifyVal, headIs]
  | num n =>
    rw [show stringifyVal (.num n) = intToChars n from rfl, intToChars]
    by_cases hneg : n < 0
    · rw [if_pos hneg]
      simp [headIs]
    · rw [if_neg hneg]
      exact headIs_false_of_digit _ _ (digitHead_natToChars _ _) (by decide)
  | str s => simp [stringifyVal, quoteStr, headIs, dquote]
  | arr xs => simp [stringifyVal, headIs]
  | obj fs => simp [stringifyVal, headIs, lbrace]

/-- Helper: a joined chunk list starts with its first chunk. -/
theorem joinComma_cons (x : List Char) (xs : List (List Char)) :
    ∃ t2, joinComma (x :: xs) = x ++ t2 := by
  cases xs with
  | nil => exact ⟨[], by simp [joinComma]⟩
  | cons y ys => exact ⟨',' :: joinComma (y :: ys), rfl⟩

/-- Helper: a defined member contributes its chunk. -/
theorem memberChunks_cons_defined (k : String) (v : JVal) (fs : List (String × JVal))
    (hv : v ≠ .undef) :
    memberChunks ((k, v) :: fs) = (quoteStr k.data ++ ':' :: stringifyVal v) :: memberChunks fs := by
  cases v with
  | undef => exact absurd rfl hv
  | null => rfl
  | bool b => rfl
  | num n => rfl
  | str s => rfl
  | arr xs => rfl
  | obj fs2 => rfl

/-- Helper: a value free of `undefined` is not `undefined`. -/
theorem noUndef_ne_undef (v : JVal) (h : noUndef v = true) : v ≠ .undef := by
  intro he
  rw [he] at h
  simp [noUndef] at h


/-- Helper: the parser reads back a printed natural number. -/
theorem parseVal_digits (f m : Nat) (rest : List Char) (h : digitHead rest = false) :
    parseVal (f + 1) (natToChars m ++ rest) = some (.num (m : Int), rest) := by
  obtain ⟨d, t, hdt, hd⟩ := natToCharsAux_shape (m + 1) m (by omega)
  have hnat : natToChars m = d :: t := by rw [natToChars, hdt]
  obtain ⟨k1, k2, k3, k4, k5, k6, k7⟩ := isDigitChar_markers d hd
  rw [hnat, List.cons_append, parseVal]
  simp only [k1, k2, k3, k4, k5, k6, k7, if_false, hd, if_true]
  rw [show d :: (t ++ rest) = natToChars m ++ rest from by rw [hnat, List.cons_append]]
  rw [parseDigits_natToChars m rest h]

/-- Helper: the parser reads back a printed negative integer. -/
theorem parseVal_neg_digits (f m : Nat) (rest : List Char) (h : digitHead rest = false) :
    parseVal (f + 1) ('-' :: (natToChars m ++ rest)) = some (.num (-(m : Int)), rest) := by
  obtain ⟨d, t, hdt, hd⟩ := natToCharsAux_shape (m + 1) m (by omega)
  have hnat : natToChars m = d :: t := by rw [natToChars, hdt]
  rw [parseVal]
  simp only [show (('-' : Char) = 'n') = False from by decide,
    show (('-' : Char) = 't') = False from by decide,
    show (('-' : Char) = 'f') = False from by decide,
    show (('-' : Char) = dquote) = False from by decide,
    show (('-' : Char) = '[') = False from by decide,
    show (('-' : Char) = lbrace) = False from by decide,
    show (('-' : Char) = '-') = True from by decide,
    if_true, if_false]
  rw [hnat, List.cons_append]
  simp only [digitHead, hd, if_true]
  rw [show d :: (t ++ rest) = natToChars m ++ rest from by rw [hnat, List.cons_append]]
  rw [parseDigits_natToChars m rest h]

/-- Helper: the size measure of an `undefined`-free value is bounded by the
length of its serialization (and the list measures by the joined chunk
length plus one), so the fuel `jsonParse` allots always suffices. -/
theorem size_le_len : ∀ k : Nat,
    (∀ v, sizeJ v ≤ k → noUndef v = true → sizeJ v ≤ (stringifyVal v).length) ∧
    (∀ xs, sizeL xs ≤ k → noUndefL xs = true → xs ≠ [] →
      sizeL xs ≤ (joinComma (elemChunks xs)).length + 1) ∧
    (∀ fs, sizeM fs ≤ k → noUndefM fs = true → fs ≠ [] →
      sizeM fs ≤ (joinComma (memberChunks fs)).length + 1) := by
  intro k
  induction k with
  | zero =>
    refine ⟨fun v hs _ => absurd hs (by have := sizeJ_pos v; omega), ?_, ?_⟩
    · intro xs hs _ hne
      cases xs with
      | nil => exact absurd rfl hne
      | cons x xs' =>
        exfalso
        have := sizeJ_pos x
        simp only [sizeL] at hs
        omega
    · intro fs hs _ hne
      cases fs with
      | nil => exact absurd rfl hne
      | cons p fs' =>
        exfalso
        obtain ⟨kk, v⟩ := p
        have := sizeJ_pos v
        simp only [sizeM] at hs
        omega
  | succ k ih =>
    obtain ⟨ihV, ihL, ihM⟩ := ih
    refine ⟨?_, ?_, ?_⟩
    · intro v hs hnu
      cases v with
      | undef => simp [noUndef] at hnu
      | null => simp [stringifyVal, sizeJ]
      | bool b => cases b <;> simp [stringifyVal, sizeJ]
      | num n =>
        rw [show stringifyVal (.num n) = intToChars n from rfl, intToChars]
        by_cases hneg : n < 0
        · rw [if_pos hneg]
          simp [sizeJ]
        · rw [if_neg hneg]
          obtain ⟨d, t, hdt, _⟩ := natToCharsAux_shape (n.toNat + 1) n.toNat (by omega)
          rw [natToChars, hdt]
          simp [sizeJ]
      | str s =>
        rw [show stringifyVal (.str s) = quoteStr s.data from rfl, quoteStr]
        simp [sizeJ]
      | arr xs =>
        cases xs with
        | nil => simp [stringifyVal, sizeJ, sizeL, elemChunks, joinComma]
        | cons x xs' =>
          have hsl : sizeL (x :: xs') ≤ k := by simp only [sizeJ] at hs; omega
          have hbound := ihL (x :: xs') hsl hnu (by simp)
          rw [show stringifyVal (.arr (x :: xs')) =
              '[' :: joinComma (elemChunks (x :: xs')) ++ [']'] from rfl]
          simp only [List.length_cons, List.length_append, List.length_singleton, sizeJ]
          omega
      | obj fs =>
        cases fs with
        | nil => simp [stringifyVal, sizeJ, sizeM, memberChunks, joinComma]
        | cons p fs' =>
          have hsm : sizeM (p :: fs') ≤ k := by simp only [sizeJ] at hs; omega
          have hbound := ihM (p :: fs') hsm hnu (by simp)
          rw [show stringifyVal (.obj (p :: fs')) =
              lbrace :: joinComma (memberChunks (p :: fs')) ++ [rbrace] from rfl]
          simp only [List.length_cons, List.length_append, List.length_singleton, sizeJ]
          omega
    · intro xs hs hnu hne
      cases xs with
      | nil => exact absurd rfl hne
      | cons x xs' =>
        simp only [noUndefL, Bool.and_eq_true] at hnu
        cases xs' with
        | nil =>
          have hx := ihV x (by simp only [sizeL] at hs; omega) hnu.1
          rw [show elemChunks [x] = [stringifyVal x] from rfl,
            show joinComma [stringifyVal x] = stringifyVal x from rfl]
          simp only [sizeL]
          omega
        | cons w ws =>
          have hpx := sizeJ_pos x
          have hpw := sizeJ_pos w
          simp only [sizeL] at hs
          have hx := ihV x (by omega) hnu.1
          have hrest := ihL (w :: ws) (by simp only [sizeL]; omega) hnu.2 (by simp)
          rw [show elemChunks (x :: w :: ws) = stringifyVal x :: elemChunks (w :: ws) from rfl,
            show elemChunks (w :: ws) = stringifyVal w :: elemChunks ws from rfl, joinComma,
            show stringifyVal w :: elemChunks ws = elemChunks (w :: ws) from rfl]
          simp only [List.length_append, List.length_cons, sizeL] at hrest ⊢
          omega
    · intro fs hs hnu hne
      cases fs with
      | nil => exact absurd rfl hne
      | cons p fs' =>
        obtain ⟨kk, v⟩ := p
        simp only [noUndefM, Bool.and_eq_true] at hnu
        have hvd : v ≠ .undef := noUndef_ne_undef v hnu.1
        rw [memberChunks_cons_defined kk v fs' hvd]
        cases fs' with
        | nil =>
          have hv := ihV v (by simp only [sizeM] at hs; omega) hnu.1
          rw [show memberChunks ([] : List (String × JVal)) = [] from rfl,
            show joinComma [quoteStr kk.data ++ ':' :: stringifyVal v] =
              quoteStr kk.data ++ ':' :: stringifyVal v from rfl]
          simp only [List.length_append, List.length_cons, sizeM]
          omega
        | cons q fs'' =>
          obtain ⟨kq, vq⟩ := q
          have hvqd : vq ≠ .undef := by
            simp only [noUndefM, Bool.and_eq_true] at hnu
            exact noUndef_ne_undef vq hnu.2.1
          have hpv := sizeJ_pos v
          have hpvq := sizeJ_pos vq
          simp only [sizeM] at hs
          have hv := ihV v (by omega) hnu.1
          have hrest := ihM ((kq, vq) :: fs'') (by simp only [sizeM]; omega) hnu.2 (by simp)
          rw [memberChunks_cons_defined kq vq fs'' hvqd, joinComma,
            show (quoteStr kq.data ++ ':' :: stringifyVal vq) :: memberChunks fs'' =
              memberChunks ((kq, vq) :: fs'') from (memberChunks_cons_defined kq vq fs'' hvqd).symm]
          simp only [List.length_append, List.length_cons, sizeM] at hrest ⊢
          omega

/-- Helper: `digitHead` on a cons. -/
theorem digitHead_cons (c : Char) (t : List Char) : digitHead (c :: t) = isDigitChar c := rfl

/-- Helper (master round trip): with enough fuel, parsing the serialization
of an `undefined`-free value consumes exactly that serialization and
returns the value, and likewise for serialized element lists up to `]` and
member lists up to the closing brace. -/
theorem parse_stringify : ∀ f : Nat,
    (∀ v rest, noUndef v = true → digitHead rest = false → sizeJ v ≤ f →
      parseVal f (stringifyVal v ++ rest) = some (v, rest)) ∧
    (∀ xs rest, noUndefL xs = true → xs ≠ [] → sizeL xs ≤ f →
      parseElems f (joinComma (elemChunks xs) ++ ']' :: rest) = some (xs, rest)) ∧
    (∀ fs rest, noUndefM fs = true → fs ≠ [] → sizeM fs ≤ f →
      parseMembers f (joinComma (memberChunks fs) ++ rbrace :: rest) = some (fs, rest)) := by
  intro f
  induction f with
  | zero =>
    refine ⟨fun v rest _ _ hs => absurd hs (by have := sizeJ_pos v; omega), ?_, ?_⟩
    · intro xs rest _ hne hs
      cases xs with
      | nil => exact absurd rfl hne
      | cons x xs' =>
        exfalso
        have := sizeJ_pos x
        simp only [sizeL] at hs
        omega
    · intro fs rest _ hne hs
      cases fs with
      | nil => exact absurd rfl hne
      | cons p fs' =>
        exfalso
        obtain ⟨kk, v⟩ := p
        have := sizeJ_pos v
        simp only [sizeM] at hs
        omega
  | succ f ih =>
    obtain ⟨ihV, ihL, ihM⟩ := ih
    refine ⟨?_, ?_, ?_⟩
    · intro v rest hnu hrest hs
      cases v with
      | undef => simp [noUndef] at hnu
      | null =>
        rw [show stringifyVal .null ++ rest = 'n' :: 'u' :: 'l' :: 'l' :: rest from rfl, parseVal]
        simp [startsWithChars]
      | bool b =>
        cases b
        · rw [show stringifyVal (.bool false) ++ rest = 'f' :: 'a' :: 'l' :: 's' :: 'e' :: rest from rfl,
            parseVal]
          simp [startsWithChars, dquote]
        · rw [show stringifyVal (.bool true) ++ rest = 't' :: 'r' :: 'u' :: 'e' :: rest from rfl,
            parseVal]
          simp [startsWithChars, dquote]
      | num n =>
        rw [show stringifyVal (.num n) = intToChars n from rfl, intToChars]
        by_cases hneg : n < 0
        · rw [if_pos hneg, List.cons_append, parseVal_neg_digits f _ rest hrest]
          have habs : -((n.natAbs : Nat) : Int) = n := by omega
          rw [habs]
        · rw [if_neg hneg, parseVal_digits f _ rest hrest]
          have htn : ((n.toNat : Nat) : Int) = n := Int.toNat_of_nonneg (by omega)
          rw [htn]
      | str s =>
        rw [show stringifyVal (.str s) ++ rest = dquote :: (escapeList s.data ++ dquote :: rest) from by
          rw [show stringifyVal (.str s) = quoteStr s.data from rfl, quoteStr]
          simp]
        rw [parseVal]
        simp only [show (dquote = 'n') = False from by decide,
          show (dquote = 't') = False from by decide,
          show (dquote = 'f') = False from by decide,
          show (dquote = dquote) = True from by simp,
          if_true, if_false]
        rw [parseStringBody_escape]
        rfl
      | arr xs =>
        cases xs with
        | nil =>
          rw [show stringifyVal (.arr []) ++ rest = '[' :: ']' :: rest from rfl, parseVal]
          simp [headIs, dquote]
        | cons x xs' =>
          have hsl : sizeL (x :: xs') ≤ f := by simp only [sizeJ] at hs; omega
          rw [show stringifyVal (.arr (x :: xs')) ++ rest =
              '[' :: (joinComma (elemChunks (x :: xs')) ++ ']' :: rest) from by
            rw [show stringifyVal (.arr (x :: xs')) =
              '[' :: joinComma (elemChunks (x :: xs')) ++ [']'] from rfl]
            simp]
          rw [parseVal]
          simp only [show (('[' : Char) = 'n') = False from by decide,
            show (('[' : Char) = 't') = False from by decide,
            show (('[' : Char) = 'f') = False from by decide,
            show (('[' : Char) = dquote) = False from by decide,
            show (('[' : Char) = '[') = True from by decide,
            if_true, if_false]
          have hh : headIs ']' (joinComma (elemChunks (x :: xs')) ++ ']' :: rest) = false := by
            obtain ⟨t2, ht2⟩ := joinComma_cons (stringifyVal x) (elemChunks xs')
            rw [show elemChunks (x :: xs') = stringifyVal x :: elemChunks xs' from rfl, ht2,
              List.append_assoc]
            exact stringify_headIs_rbrack x _
          simp only [hh, Bool.false_eq_true, if_false]
          rw [ihL (x :: xs') rest hnu (by simp) hsl]
          rfl
      | obj fs =>
        cases fs with
        | nil =>
          rw [show stringifyVal (.obj []) ++ rest = lbrace :: rbrace :: rest from rfl, parseVal]
          simp [headIs, dquote, lbrace, rbrace]
        | cons p fs' =>
          obtain ⟨kk, v⟩ := p
          have hvd : v ≠ .undef := by
            simp only [noUndef, noUndefM, Bool.and_eq_true] at hnu
            exact noUndef_ne_undef v hnu.1
          have hsm : sizeM ((kk, v) :: fs') ≤ f := by simp only [sizeJ] at hs; omega
          rw [show stringifyVal (.obj ((kk, v) :: fs')) ++ rest =
              lbrace :: (joinComma (memberChunks ((kk, v) :: fs')) ++ rbrace :: rest) from by
            rw [show stringifyVal (.obj ((kk, v) :: fs')) =
              lbrace :: joinComma (memberChunks ((kk, v) :: fs')) ++ [rbrace] from rfl]
            simp]
          rw [parseVal]
          simp only [show (lbrace = 'n') = False from by decide,
            show (lbrace = 't') = False from by decide,
            show (lbrace = 'f') = False from by decide,
            show (lbrace = dquote) = False from by decide,
            show (lbrace = '[') = False from by decide,
            show (lbrace = lbrace) = True from by simp,
            if_true, if_false]
          have hh : headIs rbrace (joinComma (memberChunks ((kk, v) :: fs')) ++ rbrace :: rest) = false := by
            rw [memberChunks_cons_defined kk v fs' hvd]
            obtain ⟨t2, ht2⟩ := joinComma_cons (quoteStr kk.data ++ ':' :: stringifyVal v) (memberChunks fs')
            rw [ht2, List.append_assoc, quoteStr]
            simp [headIs, dquote, rbrace]
          simp only [hh, Bool.false_eq_true, if_false]
          rw [ihM ((kk, v) :: fs') rest hnu (by simp) hsm]
          rfl
    · intro xs rest hnu hne hs
      cases xs with
      | nil => exact absurd rfl hne
      | cons x xs' =>
        simp only [noUndefL, Bool.and_eq_true] at hnu
        cases xs' with
        | nil =>
          rw [show joinComma (elemChunks [x]) = stringifyVal x from rfl, parseElems]
          rw [ihV x (']' :: rest) hnu.1 (by rw [digitHead_cons]; decide)
            (by simp only [sizeL] at hs; omega)]
          simp
        | cons w ws =>
          have hpx := sizeJ_pos x
          simp only [sizeL] at hs
          rw [show joinComma (elemChunks (x :: w :: ws)) =
              stringifyVal x ++ ',' :: joinComma (elemChunks (w :: ws)) from rfl]
          rw [List.append_assoc, List.cons_append, parseElems]
          rw [ihV x (',' :: (joinComma (elemChunks (w :: ws)) ++ ']' :: rest)) hnu.1
            (by rw [digitHead_cons]; decide) (by omega)]
          simp only [eq_self_iff_true, if_true]
          rw [ihL (w :: ws) rest hnu.2 (by simp) (by simp only [sizeL]; omega)]
    · intro fs rest hnu hne hs
      cases fs with
      | nil => exact absurd rfl hne
      | cons p fs' =>
        obtain ⟨kk, v⟩ := p
        simp only [noUndefM, Bool.and_eq_true] at hnu
        have hvd : v ≠ .undef := noUndef_ne_undef v hnu.1
        have hpv := sizeJ_pos v
        simp only [sizeM] at hs
        rw [memberChunks_cons_defined kk v fs' hvd]
        cases fs' with
        | nil =>
          rw [show memberChunks ([] : List (String × JVal)) = [] from rfl,
            show joinComma [quoteStr kk.data ++ ':' :: stringifyVal v] =
              quoteStr kk.data ++ ':' :: stringifyVal v from rfl]
          rw [show (quoteStr kk.data ++ ':' :: stringifyVal v) ++ rbrace :: rest =
              dquote :: (escapeList kk.data ++ dquote :: (':' :: (stringifyVal v ++ rbrace :: rest))) from by
            rw [quoteStr]
            simp]
          rw [parseMembers]
          simp only [show (dquote = dquote) = True from by simp, if_true]
          rw [parseStringBody_escape]
          simp only [eq_self_iff_true, if_true]
          rw [ihV v (rbrace :: rest) hnu.1 (by rw [digitHead_cons]; decide) (by omega)]
          simp only []
          rw [if_neg (by decide)]
          simp only [eq_self_iff_true, if_true]
        | cons q fs'' =>
          obtain ⟨kq, vq⟩ := q
          have hvqd : vq ≠ .undef := by
            simp only [noUndefM, Bool.and_eq_true] at hnu
            exact noUndef_ne_undef vq hnu.2.1
          have hpvq := sizeJ_pos vq
          rw [memberChunks_cons_defined kq vq fs'' hvqd, joinComma,
            show (quoteStr kq.data ++ ':' :: stringifyVal vq) :: memberChunks fs'' =
              memberChunks ((kq, vq) :: fs'') from (memberChunks_cons_defined kq vq fs'' hvqd).symm]
          rw [show (quoteStr kk.data ++ ':' :: stringifyVal v ++
                ',' :: joinComma (memberChunks ((kq, vq) :: fs''))) ++ rbrace :: rest =
              dquote :: (escapeList kk.data ++ dquote :: (':' :: (stringifyVal v ++
                ',' :: (joinComma (memberChunks ((kq, vq) :: fs'')) ++ rbrace :: rest)))) from by
            rw [quoteStr]
            simp]
          rw [parseMembers]
          simp only [show (dquote = dquote) = True from by simp, if_true]
          rw [parseStringBody_escape]
          simp only [eq_self_iff_true, if_true]
          rw [ihV v (',' :: (joinComma (memberChunks ((kq, vq) :: fs'')) ++ rbrace :: rest)) hnu.1
            (by rw [digitHead_cons]; decide) (by omega)]
          simp only [eq_self_iff_true, if_true]
          rw [ihM ((kq, vq) :: fs'') rest hnu.2 (by simp) (by simp only [sizeM] at hs ⊢; omega)]

/-- Helper: parsing the serialization of an `undefined`-free value yields
the value back. -/
theorem jsonParse_stringify (v : JVal) (h : noUndef v = true) :
    jsonParse ⟨stringifyVal v⟩ = some v := by
  unfold jsonParse
  have hlen : sizeJ v ≤ (stringifyVal v).length + 1 := by
    have := (size_le_len (sizeJ v)).1 v le_rfl h
    omega
  have hmain := (parse_stringify ((stringifyVal v).length + 1)).1 v [] h rfl hlen
  rw [List.append_nil] at hmain
  rw [show (String.mk (stringifyVal v)).data = stringifyVal v from rfl, hmain]

/-- C8 (amended): for every non-empty tracking-data object none of whose
nested values is `undefined`, serialization produces exactly its JSON text,
and parsing that text reproduces the object.  The `undefined` restriction
is forced by `JSON.stringify` dropping `undefined`-valued properties (see
the counterexample). -/
theorem tracking_roundtrip (fs : List (String × JVal)) (hne : fs ≠ [])
    (hwf : noUndef (.obj fs) = true) :
    serializeTrackingData (.obj fs) = ⟨stringifyVal (.obj fs)⟩ ∧
    jsonParse (serializeTrackingData (.obj fs)) = some (.obj fs) := by
  have hser : serializeTrackingData (.obj fs) = ⟨stringifyVal (.obj fs)⟩ := by
    unfold serializeTrackingData
    have h2 : jsIsEmpty (.obj fs) = false := by
      cases fs with
      | nil => exact absurd rfl hne
      | cons p fs' => rfl
    rw [show jsEqNull (.obj fs) = false from rfl, h2]
    simp
  exact ⟨hser, by rw [hser]; exact jsonParse_stringify _ hwf⟩

/-- Counterexample to C8 as stated: the object with the single property
`a` holding `undefined` is a non-empty tracking-data object (the client's
own emptiness test is false on it), yet it serializes to the two-character
text of an empty JSON object, which parses back to the empty object, not
the original. -/
theorem tracking_roundtrip_counterexample :
    jsIsEmpty (.obj [("a", .undef)]) = false ∧
    serializeTrackingData (.obj [("a", .undef)]) = ⟨[lbrace, rbrace]⟩ ∧
    jsonParse (serializeTrackingData (.obj [("a", .undef)])) = some (.obj []) ∧
    JVal.obj [] ≠ JVal.obj [("a", .undef)] := by
  refine ⟨rfl, rfl, rfl, ?_⟩
  intro h
  injection h with h2
  simp at h2

/-- Witness for C8's amended theorem at the object with one numeric
property. -/
theorem tracking_roundtrip_witness :
    serializeTrackingData (.obj [("a", .num 1)]) = ⟨stringifyVal (.obj [("a", .num 1)])⟩ ∧
    jsonParse (serializeTrackingData (.obj [("a", .num 1)])) = some (.obj [("a", .num 1)]) :=
  tracking_roundtrip [("a", .num 1)] (by simp) rfl
